import Mathlib

/-!
Verification of the sdhook package (a logrus hook delivering log entries to
Google Stackdriver, either through the logging/error-reporting APIs or through
the local fluentd logging agent).

The definitions below are a shallow embedding of the Go source: `Hook`, `New`,
`Fire`, `Wait`, `sendLogMessageViaAgent`, `sendLogMessageViaAPI`,
`buildErrorReportingEvent`, `isError`, `copyEntry` and `severityString` are
translated from sdhook.go, and the option `LogName` from opt.go.  Go maps are
modelled as association lists with unique keys, map assignment as `setKey`,
map lookup as `getVal`; nil-able client handles are modelled as `Bool`/`Option`
presence flags; code that can panic (the unchecked type assertion on the
`caller` field, and the nil dereferences in Fire's extraction of a
`*http.Request` field value) returns `Except String`.
-/

namespace Sdhook

/-- Logrus severity levels, ordered as in logrus (panic is the most severe). -/
inductive Level where
  | panic
  | fatal
  | error
  | warning
  | info
  | debug
  | trace
deriving DecidableEq, Repr

/-- The name logrus gives each level (logrus `Level.String`). -/
def Level.string : Level → String
  | Level.panic => "panic"
  | Level.fatal => "fatal"
  | Level.error => "error"
  | Level.warning => "warning"
  | Level.info => "info"
  | Level.debug => "debug"
  | Level.trace => "trace"

/-- logrus.AllLevels, the default level set of a new hook. -/
def allLevels : List Level :=
  [Level.panic, Level.fatal, Level.error, Level.warning, Level.info,
   Level.debug, Level.trace]

/-- Uppercasing of one ASCII character, as strings.ToUpper performs it on the
letters appearing in level names. -/
def upperChar (c : Char) : Char :=
  if 'a' ≤ c ∧ c ≤ 'z' then Char.ofNat (c.toNat - 32) else c

/-- strings.ToUpper on the ASCII level names. -/
def upperString (s : String) : String :=
  String.mk (s.data.map upperChar)

/-- severityString from sdhook.go: the Stackdriver severity token for a level.
Fatal and panic are special-cased; every other level is the uppercased logrus
level name. -/
def severityString (l : Level) : String :=
  match l with
  | Level.fatal => "critical"
  | Level.panic => "emergency"
  | _ => upperString (Level.string l)

/-- A Go time.Time as used by the hook: Unix seconds plus the nanosecond
remainder within the second (0 ≤ nano < 1000000000 for times produced by Go). -/
structure GoTime where
  unix : Int
  nano : Int
deriving DecidableEq, Repr

/-- time.Time.UnixNano. -/
def GoTime.unixNano (t : GoTime) : Int :=
  t.unix * 1000000000 + t.nano

/-- Two-digit zero padding, as used by time.Format for months, days, hours,
minutes and seconds. -/
def pad2 (n : Int) : String :=
  if n < 10 then "0" ++ toString n else toString n

/-- Four-digit zero padding for the year field. -/
def pad4 (n : Int) : String :=
  if n < 10 then "000" ++ toString n
  else if n < 100 then "00" ++ toString n
  else if n < 1000 then "0" ++ toString n
  else toString n

/-- Proleptic-Gregorian civil date (year, month, day) of a day count relative
to 1970-01-01, the standard era-based calendar conversion used by time
libraries. -/
def civilFromDays (z0 : Int) : Int × Int × Int :=
  let z := z0 + 719468
  let era : Int := (if 0 ≤ z then z else z - 146096).ediv 146097
  let doe : Int := z - era * 146097
  let yoe : Int := (doe - doe.ediv 1460 + doe.ediv 36524 - doe.ediv 146096).ediv 365
  let y : Int := yoe + era * 400
  let doy : Int := doe - (365 * yoe + yoe.ediv 4 - yoe.ediv 100)
  let mp : Int := (5 * doy + 2).ediv 153
  let d : Int := doy - (153 * mp + 2).ediv 5 + 1
  let m : Int := mp + (if mp < 10 then 3 else -9)
  (if m ≤ 2 then y + 1 else y, m, d)

/-- entry.Time.Format(time.RFC3339) for a UTC time: the RFC-3339 rendering of
the entry timestamp. -/
def formatRFC3339 (t : GoTime) : String :=
  let days := t.unix.fdiv 86400
  let sod := t.unix - days * 86400
  let c := civilFromDays days
  pad4 c.1 ++ "-" ++ pad2 c.2.1 ++ "-" ++ pad2 c.2.2 ++ "T" ++
    pad2 (sod.ediv 3600) ++ ":" ++ pad2 ((sod.ediv 60).emod 60) ++ ":" ++
    pad2 (sod.emod 60) ++ "Z"

/-- The subset of logging.HttpRequest that the hook fills in. -/
structure HttpRequest where
  referer : String
  remoteIp : String
  requestMethod : String
  requestUrl : String
  userAgent : String
deriving DecidableEq, Repr

/-- The parts of an inbound *http.Request that Fire reads when it converts the
request into a logging.HttpRequest.  The URL field of a request is itself a
nil-able pointer: `url` is none for a request whose URL is nil, in which case
x.URL.String() dereferences nil and panics; `url` is the rendering
x.URL.String() would produce otherwise.  A typed-nil *http.Request stored in
the entry field is modelled one level up, as `FieldValue.inbound none`. -/
structure InboundRequest where
  referer : String
  remoteAddr : String
  method : String
  url : Option String
  userAgent : String
deriving DecidableEq, Repr

/-- A call-site frame of type github.com/facebookgo/stack.Frame. -/
structure Frame where
  file : String
  name : String
  line : Int
deriving DecidableEq, Repr

/-- A non-nil Go interface value stored in entry.Data.  The three shapes the
hook recognizes (string, *http.Request, *logging.HttpRequest) and the
stack.Frame expected under the "caller" key are explicit; `other` carries the
fmt generic rendering of any remaining value.  `inbound none` is a typed-nil
*http.Request: the interface value is non-nil and matches the case arm, but
every method call on it dereferences nil. -/
inductive FieldValue where
  | str (s : String)
  | inbound (r : Option InboundRequest)
  | httpReq (r : HttpRequest)
  | frame (f : Frame)
  | other (rendering : String)
deriving DecidableEq, Repr

/-- fmt.Sprintf of a stack.Frame (its Stringer: "file:line name"). -/
def frameString (f : Frame) : String :=
  f.file ++ ":" ++ toString f.line ++ " " ++ f.name

/-- The Go runtime panic message for a nil dereference. -/
def nilDerefMsg : String :=
  "runtime error: invalid memory address or nil pointer dereference"

/-- The logging.HttpRequest Fire builds from an inbound *http.Request field
value.  Mirroring the struct literal in Fire's switch, x.Referer() is
evaluated first and panics on a typed-nil request, and x.URL.String() panics
on a nil URL; both panics are the error case. -/
def inboundToHttpRequest : Option InboundRequest → Except String HttpRequest
  | none => Except.error nilDerefMsg
  | some x =>
    match x.url with
    | none => Except.error nilDerefMsg
    | some u =>
        Except.ok { referer := x.referer, remoteIp := x.remoteAddr,
                    requestMethod := x.method, requestUrl := u,
                    userAgent := x.userAgent }

/-- Go map lookup m[k] on an association list. -/
def getVal {α : Type} (k : String) : List (String × α) → Option α
  | [] => none
  | kv :: rest => if kv.1 = k then some kv.2 else getVal k rest

/-- Go map assignment m[k] = v on an association list: replace the existing
entry for the key, else append. -/
def setKey {α : Type} (m : List (String × α)) (k : String) (v : α) :
    List (String × α) :=
  match m with
  | [] => [(k, v)]
  | kv :: rest => if kv.1 = k then (k, v) :: rest else kv :: setKey rest k v

/-- Every key occurs at most once, the invariant of association lists that
model Go maps. -/
def keysUnique {α : Type} : List (String × α) → Bool
  | [] => true
  | kv :: rest => (getVal kv.1 rest).isNone && keysUnique rest

/-- The value of the last entry carrying key `k`, if any: the value a
sequence of Go map assignments leaves behind for that key. -/
def lastVal {α : Type} (k : String) : List (String × α) → Option α
  | [] => none
  | kv :: rest =>
    match lastVal k rest with
    | some v => some v
    | none => if kv.1 = k then some kv.2 else none

/-- A Go loop `for k, v := range kvs \x7b m[k] = f(v) \x7d` over map `base`. -/
def insertAllWith {α β : Type} (f : β → α) (base : List (String × α))
    (kvs : List (String × β)) : List (String × α) :=
  kvs.foldl (fun m kv => setKey m kv.1 (f kv.2)) base

/-- A logrus entry as the hook consumes it: level, timestamp, message and the
Data field map. -/
structure Entry where
  level : Level
  time : GoTime
  message : String
  data : List (String × FieldValue)
deriving DecidableEq, Repr

/-- copyEntry from sdhook.go: shallow-copies the entry and rebuilds Data in a
freshly allocated map. -/
def copyEntry (e : Entry) : Entry :=
  { e with data := insertAllWith id [] e.data }

/-- isError from sdhook.go: a non-nil entry is error-routed exactly when its
level is error, fatal or panic. -/
def isError : Option Entry → Bool
  | none => false
  | some e =>
    match e.level with
    | Level.error => true
    | Level.fatal => true
    | Level.panic => true
    | _ => false

/-- The labels plus optional HTTP descriptor Fire derives from entry.Data. -/
structure Normalized where
  labels : List (String × String)
  httpReq : Option HttpRequest
deriving DecidableEq, Repr

/-- One iteration of Fire's switch over entry.Data: strings are copied into
labels verbatim, *http.Request and *logging.HttpRequest become the (single)
HTTP descriptor and are dropped from labels, and every other value is
stringified into labels.  The *http.Request case propagates the panic of the
extraction (typed-nil request or nil URL). -/
def normalizeStep (acc : Normalized) (kv : String × FieldValue) :
    Except String Normalized :=
  match kv.2 with
  | FieldValue.str s =>
      Except.ok { acc with labels := setKey acc.labels kv.1 s }
  | FieldValue.inbound x =>
      match inboundToHttpRequest x with
      | Except.error msg => Except.error msg
      | Except.ok r => Except.ok { acc with httpReq := some r }
  | FieldValue.httpReq r => Except.ok { acc with httpReq := some r }
  | FieldValue.frame f =>
      Except.ok { acc with labels := setKey acc.labels kv.1 (frameString f) }
  | FieldValue.other r =>
      Except.ok { acc with labels := setKey acc.labels kv.1 r }

/-- Fire's normalization loop over the (ordered model of the) field map,
stopping at the first panic. -/
def normalizeLoop (acc : Normalized) :
    List (String × FieldValue) → Except String Normalized
  | [] => Except.ok acc
  | kv :: rest =>
    match normalizeStep acc kv with
    | Except.error msg => Except.error msg
    | Except.ok acc2 => normalizeLoop acc2 rest

/-- Fire's field normalization: labels plus optional HTTP descriptor, or the
panic of the *http.Request extraction. -/
def normalizeFields (data : List (String × FieldValue)) :
    Except String Normalized :=
  normalizeLoop { labels := [], httpReq := none } data

/-- Whether one field value lets Fire's switch run without a nil dereference:
only a *http.Request value that is typed-nil or has a nil URL panics. -/
def requestOk (v : FieldValue) : Bool :=
  match v with
  | FieldValue.inbound x =>
      match inboundToHttpRequest x with
      | Except.ok _ => true
      | Except.error _ => false
  | _ => true

/-- Whether every field value of an entry is safe for Fire's switch. -/
def requestsOk : List (String × FieldValue) → Bool
  | [] => true
  | kv :: rest => requestOk kv.2 && requestsOk rest

/-- The effect of one iteration of Fire's switch on an input whose extraction
does not panic, used to characterize the loop on well-formed field maps. -/
def normalizeStepTotal (acc : Normalized) (kv : String × FieldValue) :
    Normalized :=
  match kv.2 with
  | FieldValue.str s => { acc with labels := setKey acc.labels kv.1 s }
  | FieldValue.inbound x =>
      match inboundToHttpRequest x with
      | Except.ok r => { acc with httpReq := some r }
      | Except.error _ => acc
  | FieldValue.httpReq r => { acc with httpReq := some r }
  | FieldValue.frame f => { acc with labels := setKey acc.labels kv.1 (frameString f) }
  | FieldValue.other r => { acc with labels := setKey acc.labels kv.1 r }

/-- The HTTP descriptor a field value yields, if any. -/
def valDescr : FieldValue → Option HttpRequest
  | FieldValue.inbound x =>
      match inboundToHttpRequest x with
      | Except.ok r => some r
      | Except.error _ => none
  | FieldValue.httpReq r => some r
  | _ => none

/-- The descriptor of the last field (in processing order) that yields an HTTP
descriptor; later fields win. -/
def lastHttpDescr : List (String × FieldValue) → Option HttpRequest
  | [] => none
  | kv :: rest =>
    match lastHttpDescr rest with
    | some r => some r
    | none => valDescr kv.2

/-- The label value Fire's switch produces for a field value: strings copied
verbatim, HTTP-shaped values dropped, everything else stringified. -/
def labelVal : FieldValue → Option String
  | FieldValue.str s => some s
  | FieldValue.inbound _ => none
  | FieldValue.httpReq _ => none
  | FieldValue.frame f => some (frameString f)
  | FieldValue.other r => some r

/-- A logging.MonitoredResource. -/
structure MonitoredResource where
  type : String
  labels : List (String × String)
deriving DecidableEq, Repr

/-- The Projects sub-service of the error reporting client; its Events handle
may be nil. -/
structure ProjectsService where
  eventsPresent : Bool
deriving DecidableEq, Repr

/-- The clouderrorreporting Service handle; its Projects sub-service may be
nil. -/
structure ErrReportingService where
  projects : Option ProjectsService
deriving DecidableEq, Repr

/-- The Hook configuration of sdhook.go.  Nil-able client handles (the logging
EntriesService and the fluentd agent client) are modelled as presence flags;
the error reporting service keeps its nested nil-able structure because
sendLogMessageViaAPI tests each layer. -/
structure Hook where
  levels : List Level
  projectID : String
  servicePresent : Bool
  errorService : Option ErrReportingService
  resource : Option MonitoredResource
  logName : String
  labels : List (String × String)
  partialSuccess : Bool
  agentClientPresent : Bool
  errorReportingServiceName : String
  errorReportingLogName : String
deriving DecidableEq, Repr

/-- The nil-check chain of sendLogMessageViaAPI: errorService, its Projects and
its Events must all be present. -/
def errorServiceReady (h : Hook) : Bool :=
  match h.errorService with
  | none => false
  | some s =>
    match s.projects with
    | none => false
    | some p => p.eventsPresent

/-- errorReporting.ServiceContext (service name and version). -/
structure ServiceContext where
  service : String
  version : String
deriving DecidableEq, Repr

/-- errorReporting.SourceLocation. -/
structure SourceLocation where
  filePath : String
  functionName : String
  lineNumber : Int
deriving DecidableEq, Repr

/-- errorReporting.HttpRequestContext. -/
structure HttpRequestContext where
  method : String
  referrer : String
  remoteIp : String
  url : String
  userAgent : String
deriving DecidableEq, Repr

/-- errorReporting.ErrorContext.  The struct's pointer fields for the report
location and the HTTP context stay optional; the context itself is always
allocated by the builder, so it is modelled as a value. -/
structure ErrorContext where
  user : String
  reportLocation : Option SourceLocation
  httpRequest : Option HttpRequestContext
deriving DecidableEq, Repr

/-- errorReporting.ReportedErrorEvent as the builder fills it in; the service
context and error context pointers are always allocated by the builder and are
modelled as values. -/
structure ReportedErrorEvent where
  eventTime : String
  message : String
  serviceContext : ServiceContext
  context : ErrorContext
deriving DecidableEq, Repr

/-- Go map read labels[k] on a string map: the zero value "" when absent. -/
def getLabel (labels : List (String × String)) (k : String) : String :=
  match getVal k labels with
  | some v => v
  | none => ""

/-- Whether the "caller" field, if present, really holds a stack.Frame: the
unchecked type assertion in buildErrorReportingEvent succeeds exactly on such
entries. -/
def callerOk (data : List (String × FieldValue)) : Bool :=
  match getVal "caller" data with
  | none => true
  | some (FieldValue.frame _) => true
  | some _ => false

/-- The SourceLocation built from a stack.Frame caller field. -/
def frameLocation (f : Frame) : SourceLocation :=
  { filePath := f.file, functionName := f.name, lineNumber := f.line }

/-- The HttpRequestContext built from the normalized HTTP descriptor. -/
def httpRequestContextOf (r : HttpRequest) : HttpRequestContext :=
  { method := r.requestMethod, referrer := r.referer, remoteIp := r.remoteIp,
    url := r.requestUrl, userAgent := r.userAgent }

/-- buildErrorReportingEvent from sdhook.go.  The unchecked type assertion
entry.Data["caller"].(stack.Frame) panics when the field holds any other
value; a panic is modelled as the error case of Except. -/
def buildErrorReportingEvent (h : Hook) (e : Entry)
    (labels : List (String × String)) (httpReq : Option HttpRequest) :
    Except String ReportedErrorEvent :=
  let ctx0 : ErrorContext :=
    { user := getLabel labels "user", reportLocation := none, httpRequest := none }
  let withCaller : Except String ErrorContext :=
    match getVal "caller" e.data with
    | none => Except.ok ctx0
    | some (FieldValue.frame f) =>
        Except.ok { ctx0 with reportLocation := some (frameLocation f) }
    | some _ => Except.error "interface conversion: caller is not stack.Frame"
  match withCaller with
  | Except.error msg => Except.error msg
  | Except.ok ctx1 =>
    let ctx2 : ErrorContext :=
      match httpReq with
      | none => ctx1
      | some r => { ctx1 with httpRequest := some (httpRequestContextOf r) }
    Except.ok
      { eventTime := formatRFC3339 e.time
        message := e.message
        serviceContext :=
          { service := h.errorReportingServiceName
            version := getLabel labels "version" }
        context := ctx2 }

/-- A JSON-like value inside the generic record posted to the logging agent:
a string, an embedded logging.HttpRequest, or a nested JSON object. -/
inductive JValue where
  | s (v : String)
  | http (r : HttpRequest)
  | obj (fields : List (String × JValue))

/-- One field of the omitempty JSON encoding of a string-valued struct field:
present unless the string is empty. -/
def jsonStringField (k v : String) : List (String × JValue) :=
  if v = "" then [] else [(k, JValue.s v)]

/-- The JSON object json.Marshal produces for an HttpRequestContext (all
fields are tagged omitempty). -/
def jsonOfHttpRequestContext (r : HttpRequestContext) : JValue :=
  JValue.obj (jsonStringField "method" r.method ++
    jsonStringField "referrer" r.referrer ++
    jsonStringField "remoteIp" r.remoteIp ++
    jsonStringField "url" r.url ++
    jsonStringField "userAgent" r.userAgent)

/-- The JSON object json.Marshal produces for a SourceLocation; the line
number is tagged with the string option and rendered as a decimal string. -/
def jsonOfSourceLocation (l : SourceLocation) : JValue :=
  JValue.obj (jsonStringField "filePath" l.filePath ++
    jsonStringField "functionName" l.functionName ++
    (if l.lineNumber = 0 then [] else [("lineNumber", JValue.s (toString l.lineNumber))]))

/-- The JSON object json.Marshal produces for an ErrorContext. -/
def jsonOfErrorContext (c : ErrorContext) : JValue :=
  JValue.obj
    ((match c.httpRequest with
      | some r => [("httpRequest", jsonOfHttpRequestContext r)]
      | none => []) ++
     (match c.reportLocation with
      | some l => [("reportLocation", jsonOfSourceLocation l)]
      | none => []) ++
     jsonStringField "user" c.user)

/-- The JSON object json.Marshal produces for a ServiceContext. -/
def jsonOfServiceContext (sc : ServiceContext) : JValue :=
  JValue.obj (jsonStringField "service" sc.service ++
    jsonStringField "version" sc.version)

/-- json.Marshal of the built ReportedErrorEvent followed by json.Unmarshal
into a generic string-keyed map, as sendLogMessageViaAgent performs it.
Marshaling this payload cannot fail (every field is a string, a bounded
integer or a nested struct of such), so the roundtrip is total and the error
branches after json.Marshal and json.Unmarshal in the source are
unreachable. -/
def marshalReportedErrorEvent (ev : ReportedErrorEvent) :
    List (String × JValue) :=
  [("context", jsonOfErrorContext ev.context)] ++
  jsonStringField "eventTime" ev.eventTime ++
  jsonStringField "message" ev.message ++
  [("serviceContext", jsonOfServiceContext ev.serviceContext)]

/-- A single logging.LogEntry as written by the API backend. -/
structure LogEntry where
  severity : String
  timestamp : String
  textPayload : String
  labels : List (String × String)
  httpRequest : Option HttpRequest
deriving DecidableEq, Repr

/-- The logging.WriteLogEntriesRequest the API backend sends. -/
structure WriteLogEntriesRequest where
  logName : String
  resource : Option MonitoredResource
  labels : List (String × String)
  partialSuccess : Bool
  entries : List LogEntry
deriving DecidableEq, Repr

/-- An observable outbound action of one delivery: a write through the logging
API, a report through the error-reporting API, a post to the fluentd agent, or
a line on the process diagnostic log. -/
inductive Effect where
  | apiWrite (req : WriteLogEntriesRequest)
  | apiReport (projectID : String) (event : ReportedErrorEvent)
  | agentPost (tag : String) (record : List (String × JValue))
  | diag (message : String)

/-- The tag (log name) of an agent post effect. -/
def effectTag : Effect → Option String
  | Effect.agentPost tag _ => some tag
  | _ => none

/-- The agent log names a delivery outcome posts to. -/
def postedTags (r : Except String (List Effect)) : List String :=
  match r with
  | Except.ok effs => effs.filterMap effectTag
  | Except.error _ => []

/-- The flat record sendLogMessageViaAgent builds: severity, epoch seconds and
nanosecond remainder as decimal strings, the message, every label merged at
top level, and the HTTP descriptor when present. -/
def agentFlatRecord (e : Entry) (labels : List (String × String))
    (httpReq : Option HttpRequest) : List (String × JValue) :=
  let base : List (String × JValue) :=
    [("severity", JValue.s (severityString e.level)),
     ("timestampSeconds", JValue.s (toString e.time.unix)),
     ("timestampNanos", JValue.s (toString (e.time.unixNano - e.time.unix * 1000000000))),
     ("message", JValue.s e.message)]
  let withLabels := insertAllWith JValue.s base labels
  match httpReq with
  | some r => setKey withLabels "httpRequest" (JValue.http r)
  | none => withLabels

/-- sendLogMessageViaAgent from sdhook.go.  When an error-reporting service
name is configured and the entry is error-routed, the serialized error event
is merged with the flat record (flat fields overwrite on collision) and posted
to the error-reporting log name; otherwise the flat record goes to the regular
log name. -/
def sendLogMessageViaAgent (h : Hook) (e : Entry)
    (labels : List (String × String)) (httpReq : Option HttpRequest) :
    Except String (List Effect) :=
  let logEntry := agentFlatRecord e labels httpReq
  if h.errorReportingServiceName ≠ "" ∧ isError (some e) = true then
    match buildErrorReportingEvent h e labels httpReq with
    | Except.error msg => Except.error msg
    | Except.ok ev =>
        let errorJSONPayload := marshalReportedErrorEvent ev
        let merged := insertAllWith id errorJSONPayload logEntry
        Except.ok [Effect.agentPost h.errorReportingLogName merged]
  else
    Except.ok [Effect.agentPost h.logName logEntry]

/-- sendLogMessageViaAPI from sdhook.go.  Error-routed entries go to the
error-reporting API when a service name is configured (with a diagnostic line
instead when the error client or its sub-services are nil); every other entry
is written through the logging API, diverted to the error-reporting log name
when the entry is error-routed and that name is non-empty. -/
def sendLogMessageViaAPI (h : Hook) (e : Entry)
    (labels : List (String × String)) (httpReq : Option HttpRequest) :
    Except String (List Effect) :=
  if h.errorReportingServiceName ≠ "" ∧ isError (some e) = true then
    match buildErrorReportingEvent h e labels httpReq with
    | Except.error msg => Except.error msg
    | Except.ok ev =>
        if errorServiceReady h then
          Except.ok [Effect.apiReport h.projectID ev]
        else
          Except.ok [Effect.diag "the error reporting service is not set"]
  else
    let logName :=
      if h.errorReportingLogName ≠ "" ∧ isError (some e) = true then
        h.errorReportingLogName
      else h.logName
    Except.ok [Effect.apiWrite
      { logName := logName
        resource := h.resource
        labels := h.labels
        partialSuccess := h.partialSuccess
        entries := [{ severity := severityString e.level
                      timestamp := formatRFC3339 e.time
                      textPayload := e.message
                      labels := labels
                      httpRequest := httpReq }] }]

/-- The body of the goroutine Fire launches: normalize the field map
(propagating a panic of the *http.Request extraction), then deliver through
the agent when its client is present, else through the API. -/
def deliverEntry (h : Hook) (e : Entry) : Except String (List Effect) :=
  match normalizeFields e.data with
  | Except.error msg => Except.error msg
  | Except.ok n =>
    if h.agentClientPresent then sendLogMessageViaAgent h e n.labels n.httpReq
    else sendLogMessageViaAPI h e n.labels n.httpReq

/-- What one call of Fire does synchronously: the new value of the in-flight
counter, the snapshot entries handed to freshly launched delivery tasks, and
the error value returned to the caller. -/
structure FireResult where
  inFlight : Nat
  launched : List Entry
  ret : Option String
deriving DecidableEq, Repr

/-- Fire from sdhook.go: add one to the wait-group counter, hand a copied
entry to one new delivery goroutine, and return nil unconditionally. -/
def Fire (h : Hook) (inFlight : Nat) (e : Entry) : FireResult :=
  { inFlight := inFlight + 1, launched := [copyEntry e], ret := none }

/-- The shared mutable state of the dispatcher: the wait-group counter and
the number of delivery attempts the backend has observed. -/
structure DispatcherState where
  inFlight : Nat
  attempts : Nat
deriving DecidableEq, Repr

/-- An atomic event of the dispatcher's concurrent execution: a Fire call, or
the completion of one launched delivery task (with its delivery outcome; the
deferred wait-group Done runs either way). -/
inductive HookOp where
  | fire (e : Entry)
  | complete (delivered : Bool)
deriving DecidableEq, Repr

/-- The effect of one event on the shared state: Fire adds one to the counter;
a completing task records its delivery attempt and subtracts one regardless of
the delivery outcome. -/
def stepOp (s : DispatcherState) : HookOp → DispatcherState
  | HookOp.fire _ => { s with inFlight := s.inFlight + 1 }
  | HookOp.complete _ => { inFlight := s.inFlight - 1, attempts := s.attempts + 1 }

/-- Run an interleaving of dispatcher events. -/
def runOps (s : DispatcherState) : List HookOp → DispatcherState
  | [] => s
  | op :: rest => runOps (stepOp s op) rest

/-- Number of Fire events in a trace. -/
def countFires : List HookOp → Nat
  | [] => 0
  | HookOp.fire _ :: r => countFires r + 1
  | HookOp.complete _ :: r => countFires r

/-- Number of task completions in a trace. -/
def countCompletes : List HookOp → Nat
  | [] => 0
  | HookOp.fire _ :: r => countCompletes r
  | HookOp.complete _ :: r => countCompletes r + 1

/-- A trace is realizable from a given number of outstanding tasks when no
completion occurs without a matching earlier Fire: only launched tasks can
finish. -/
def tasksBalanced : Nat → List HookOp → Bool
  | _, [] => true
  | n, HookOp.fire _ :: r => tasksBalanced (n + 1) r
  | n, HookOp.complete _ :: r => if n = 0 then false else tasksBalanced (n - 1) r

/-- Wait from sdhook.go returns exactly when the wait-group counter is zero. -/
def waitReturns (s : DispatcherState) : Bool :=
  s.inFlight == 0

/-- defaultName from sdhook.go. -/
def defaultName : String := "default"

/-- The LogName option from opt.go: qualified as projects/ID/logs/name when a
project ID is set, the bare name otherwise. -/
def LogNameOpt (name : String) (h : Hook) : Except String Hook :=
  if h.projectID = "" then Except.ok { h with logName := name }
  else Except.ok { h with logName := "projects/" ++ h.projectID ++ "/logs/" ++ name }

/-- The hook value New starts from before applying options. -/
def defaultHook : Hook :=
  { levels := allLevels, projectID := "", servicePresent := false,
    errorService := none, resource := none, logName := "", labels := [],
    partialSuccess := false, agentClientPresent := false,
    errorReportingServiceName := "", errorReportingLogName := "" }

/-- New's option loop: apply each option in order, stopping at the first
error. -/
def applyOpts : Hook → List (Hook → Except String Hook) → Except String Hook
  | h, [] => Except.ok h
  | h, o :: rest =>
    match o h with
    | Except.error msg => Except.error msg
    | Except.ok h2 => applyOpts h2 rest

/-- The validation and defaulting New performs after applying options: a
delivery handle must be present; resource and project are required unless the
agent client is present; an unset log name defaults to "default" (qualified by
the project); an unset error-reporting log name defaults to the log name with
the _errors suffix. -/
def newChecks (h : Hook) : Except String Hook :=
  if !h.servicePresent && !h.agentClientPresent then
    Except.error "no stackdriver service was provided"
  else if h.resource.isNone && !h.agentClientPresent then
    Except.error "the monitored resource was not provided"
  else if h.projectID == "" && !h.agentClientPresent then
    Except.error "the project id was not provided"
  else
    match (if h.logName == "" then LogNameOpt defaultName h else Except.ok h) with
    | Except.error msg => Except.error msg
    | Except.ok h1 =>
        Except.ok (if h1.errorReportingLogName == "" then
          { h1 with errorReportingLogName := h1.logName ++ "_errors" }
        else h1)

/-- New from sdhook.go: start from the default hook, apply the options, then
validate and default. -/
def New (opts : List (Hook → Except String Hook)) : Except String Hook :=
  match applyOpts defaultHook opts with
  | Except.error msg => Except.error msg
  | Except.ok h => newChecks h

/-- The agent-mode hook used in the concrete instances below. -/
def hookAgent : Hook :=
  { defaultHook with agentClientPresent := true, logName := "L", errorReportingLogName := "L_errors" }

/-- The API-mode hook used in the concrete instances below. -/
def hookApi : Hook :=
  { defaultHook with servicePresent := true, projectID := "p", resource := some { type := "global", labels := [] }, logName := "projects/p/logs/default", errorReportingLogName := "projects/p/logs/default_errors" }

/-- An error-level entry with no fields. -/
def entryErr : Entry :=
  { level := Level.error, time := { unix := 0, nano := 0 }, message := "m",
    data := [] }

/-- An error-level entry whose caller field holds a string, not a
stack.Frame. -/
def entryBadCaller : Entry :=
  { level := Level.error, time := { unix := 0, nano := 0 }, message := "m",
    data := [("caller", FieldValue.str "oops")] }

/-- An option that switches the hook to agent mode, as GoogleLoggingAgent
does on success. -/
def agentOpt (h : Hook) : Except String Hook :=
  Except.ok { h with agentClientPresent := true }

/-- The API-mode hook with an error-reporting service name configured (its
error reporting client handle is absent). -/
def hookApiSvc : Hook :=
  { hookApi with errorReportingServiceName := "svc" }

/-- The agent-mode hook with an error-reporting service name configured. -/
def hookAgentSvc : Hook :=
  { hookAgent with errorReportingServiceName := "svc" }

/-- An error-level entry carrying a user field, as in the spec's end-to-end
scenario 2. -/
def entryUser : Entry :=
  { level := Level.error, time := { unix := 0, nano := 0 }, message := "boom",
    data := [("user", FieldValue.str "alice")] }

/-- A field map containing a string field, a well-formed inbound request, a
prebuilt HTTP descriptor and a generic value. -/
def dataMixed : List (String × FieldValue) :=
  [("a", FieldValue.str "x"),
   ("r1", FieldValue.inbound (some { referer := "", remoteAddr := "1.2.3.4", method := "GET", url := some "u", userAgent := "ua" })),
   ("r2", FieldValue.httpReq { referer := "r", remoteIp := "ip", requestMethod := "POST", requestUrl := "v", userAgent := "u2" }),
   ("n", FieldValue.other "42")]

/-- An info-level entry one of whose fields holds a typed-nil *http.Request:
no caller field is involved, yet Fire's extraction dereferences nil. -/
def entryNilReq : Entry :=
  { level := Level.info, time := { unix := 0, nano := 0 }, message := "m",
    data := [("req", FieldValue.inbound none)] }

theorem getVal_setKey {α : Type} (m : List (String × α)) (k0 k : String) (v : α) :
    getVal k (setKey m k0 v) = if k0 = k then some v else getVal k m := by
  induction m with
  | nil => simp [setKey, getVal]
  | cons kv rest ih =>
      by_cases h1 : kv.1 = k0
      · by_cases h2 : k0 = k
        · simp [setKey, getVal, h1, h2]
        · have h3 : ¬ kv.1 = k := by rw [h1]; exact h2
          simp [setKey, getVal, h1, h2, h3]
      · by_cases h2 : kv.1 = k
        · have h3 : ¬ k0 = k := fun h => h1 (h2.trans h.symm)
          have h4 : ¬ k = k0 := fun h => h3 h.symm
          simp [setKey, getVal, h1, h2, h3, h4]
        · simp [setKey, getVal, h1, h2, ih]

theorem keysUnique_setKey {α : Type} (m : List (String × α)) (k : String) (v : α)
    (hm : keysUnique m = true) : keysUnique (setKey m k v) = true := by
  induction m with
  | nil => simp [setKey, keysUnique, getVal]
  | cons kv rest ih =>
      simp only [keysUnique, Bool.and_eq_true, Option.isNone_iff_eq_none] at hm
      by_cases h1 : kv.1 = k
      · simp only [setKey, h1, if_pos rfl, keysUnique, Bool.and_eq_true,
          Option.isNone_iff_eq_none]
        exact ⟨by rw [← h1]; exact hm.1, hm.2⟩
      · simp only [setKey, if_neg h1, keysUnique, Bool.and_eq_true,
          Option.isNone_iff_eq_none]
        refine ⟨?_, ih hm.2⟩
        rw [getVal_setKey]
        have h2 : ¬ k = kv.1 := fun h => h1 h.symm
        simp only [h2, if_neg h2]
        exact hm.1

theorem getVal_insertAllWith {α β : Type} (f : β → α) (kvs : List (String × β))
    (base : List (String × α)) (k : String) :
    getVal k (insertAllWith f base kvs) =
      match lastVal k kvs with
      | some v => some (f v)
      | none => getVal k base := by
  induction kvs generalizing base with
  | nil => rfl
  | cons kv rest ih =>
      show getVal k (insertAllWith f (setKey base kv.1 (f kv.2)) rest) = _
      rw [ih]
      cases h : lastVal k rest with
      | some v => simp [lastVal, h]
      | none =>
          rw [getVal_setKey]
          by_cases h2 : kv.1 = k <;> simp [lastVal, h, h2]

theorem lastVal_eq_getVal {α : Type} (kvs : List (String × α)) (k : String)
    (hu : keysUnique kvs = true) : lastVal k kvs = getVal k kvs := by
  induction kvs with
  | nil => rfl
  | cons kv rest ih =>
      simp only [keysUnique, Bool.and_eq_true, Option.isNone_iff_eq_none] at hu
      by_cases h1 : kv.1 = k
      · have hnone : getVal k rest = none := by rw [← h1]; exact hu.1
        have hl : lastVal k rest = none := (ih hu.2).trans hnone
        simp [lastVal, getVal, hl, h1]
      · rw [lastVal, ih hu.2]
        cases hr : getVal k rest <;> simp [getVal, h1, hr]

theorem keysUnique_insertAllWith {α β : Type} (f : β → α)
    (kvs : List (String × β)) (base : List (String × α))
    (hb : keysUnique base = true) : keysUnique (insertAllWith f base kvs) = true := by
  induction kvs generalizing base with
  | nil => exact hb
  | cons kv rest ih =>
      exact ih (setKey base kv.1 (f kv.2)) (keysUnique_setKey base kv.1 (f kv.2) hb)

theorem normalizeStepTotal_httpReq (acc : Normalized) (kv : String × FieldValue) :
    (normalizeStepTotal acc kv).httpReq =
      match valDescr kv.2 with
      | some r => some r
      | none => acc.httpReq := by
  obtain ⟨k0, v⟩ := kv
  cases v with
  | str s => rfl
  | inbound x =>
      cases hx : inboundToHttpRequest x <;> simp [normalizeStepTotal, valDescr, hx]
  | httpReq r => rfl
  | frame f => rfl
  | other r => rfl

theorem normalizeStepTotal_labels (acc : Normalized) (kv : String × FieldValue) :
    (normalizeStepTotal acc kv).labels =
      match labelVal kv.2 with
      | some s => setKey acc.labels kv.1 s
      | none => acc.labels := by
  obtain ⟨k0, v⟩ := kv
  cases v with
  | str s => rfl
  | inbound x =>
      cases hx : inboundToHttpRequest x <;> simp [normalizeStepTotal, labelVal, hx]
  | httpReq r => rfl
  | frame f => rfl
  | other r => rfl

theorem normalizeFoldl_httpReq (data : List (String × FieldValue))
    (acc : Normalized) :
    (data.foldl normalizeStepTotal acc).httpReq =
      match lastHttpDescr data with
      | some r => some r
      | none => acc.httpReq := by
  induction data generalizing acc with
  | nil => rfl
  | cons kv rest ih =>
      show (rest.foldl normalizeStepTotal (normalizeStepTotal acc kv)).httpReq = _
      rw [ih]
      cases h : lastHttpDescr rest with
      | some r => simp [lastHttpDescr, h]
      | none =>
          rw [normalizeStepTotal_httpReq]
          simp only [lastHttpDescr, h]

theorem normalizeFoldl_labels (data : List (String × FieldValue))
    (acc : Normalized) (k : String) (hu : keysUnique data = true) :
    getVal k (data.foldl normalizeStepTotal acc).labels =
      match getVal k data with
      | some v =>
          match labelVal v with
          | some s => some s
          | none => getVal k acc.labels
      | none => getVal k acc.labels := by
  induction data generalizing acc with
  | nil => rfl
  | cons kv rest ih =>
      simp only [keysUnique, Bool.and_eq_true] at hu
      show getVal k (rest.foldl normalizeStepTotal (normalizeStepTotal acc kv)).labels = _
      rw [ih _ hu.2]
      rw [normalizeStepTotal_labels]
      by_cases h1 : kv.1 = k
      · have hnone : getVal k rest = none := by
          rw [← h1]; exact Option.isNone_iff_eq_none.mp hu.1
        cases hl : labelVal kv.2 <;>
          simp [getVal, hnone, h1, hl, getVal_setKey]
      · have h1s : ¬ kv.1 = k := h1
        cases hr : getVal k rest <;>
          cases hl : labelVal kv.2 <;>
            simp [getVal, h1s, hr, hl, getVal_setKey]

theorem normalizeLoop_eq_foldl (data : List (String × FieldValue))
    (acc : Normalized) (hr : requestsOk data = true) :
    normalizeLoop acc data = Except.ok (data.foldl normalizeStepTotal acc) := by
  induction data generalizing acc with
  | nil => rfl
  | cons kv rest ih =>
      simp only [requestsOk, Bool.and_eq_true] at hr
      obtain ⟨k0, v⟩ := kv
      cases v with
      | str s =>
          show normalizeLoop _ rest = _
          exact ih _ hr.2
      | inbound x =>
          have hok := hr.1
          simp only [requestOk] at hok
          cases hx : inboundToHttpRequest x with
          | error msg => rw [hx] at hok; simp at hok
          | ok r =>
              simp only [normalizeLoop, normalizeStep, List.foldl_cons,
                normalizeStepTotal, hx]
              exact ih _ hr.2
      | httpReq r =>
          show normalizeLoop _ rest = _
          exact ih _ hr.2
      | frame f =>
          show normalizeLoop _ rest = _
          exact ih _ hr.2
      | other r =>
          show normalizeLoop _ rest = _
          exact ih _ hr.2

theorem normalizeLoop_error (data : List (String × FieldValue))
    (acc : Normalized) (hr : requestsOk data = false) :
    ∃ msg, normalizeLoop acc data = Except.error msg := by
  induction data generalizing acc with
  | nil => simp [requestsOk] at hr
  | cons kv rest ih =>
      obtain ⟨k0, v⟩ := kv
      by_cases h1 : requestOk v = true
      · have hrest : requestsOk rest = false := by
          simp only [requestsOk, h1, Bool.true_and] at hr
          exact hr
        cases v with
        | str s => exact ih _ hrest
        | inbound x =>
            simp only [requestOk] at h1
            cases hx : inboundToHttpRequest x with
            | error msg => rw [hx] at h1; simp at h1
            | ok r =>
                simp only [normalizeLoop, normalizeStep, hx]
                exact ih _ hrest
        | httpReq r => exact ih _ hrest
        | frame f => exact ih _ hrest
        | other r => exact ih _ hrest
      · cases v with
        | str s => simp [requestOk] at h1
        | inbound x =>
            simp only [requestOk] at h1
            cases hx : inboundToHttpRequest x with
            | error msg =>
                refine ⟨msg, ?_⟩
                simp only [normalizeLoop, normalizeStep, hx]
            | ok r => rw [hx] at h1; simp at h1
        | httpReq r => simp [requestOk] at h1
        | frame f => simp [requestOk] at h1
        | other r => simp [requestOk] at h1

theorem lastHttpDescr_isSome (data : List (String × FieldValue))
    (hx : data.any (fun kv => (valDescr kv.2).isSome) = true) :
    (lastHttpDescr data).isSome = true := by
  induction data with
  | nil => simp at hx
  | cons kv rest ih =>
      simp only [List.any_cons, Bool.or_eq_true] at hx
      cases h : lastHttpDescr rest with
      | some r => simp [lastHttpDescr, h]
      | none =>
          rcases hx with hx | hx
          · simp [lastHttpDescr, h, hx]
          · have := ih hx
            rw [h] at this
            simp at this

theorem buildErrorReportingEvent_ok (h : Hook) (e : Entry)
    (labels : List (String × String)) (httpReq : Option HttpRequest)
    (hc : callerOk e.data = true) :
    ∃ ev, buildErrorReportingEvent h e labels httpReq = Except.ok ev := by
  unfold callerOk at hc
  unfold buildErrorReportingEvent
  cases hcall : getVal "caller" e.data with
  | none => cases httpReq <;> simp [hcall]
  | some v =>
      rw [hcall] at hc
      cases v <;> simp at hc <;> cases httpReq <;> simp [hcall]

theorem runOps_invariant (ops : List HookOp) (s : DispatcherState)
    (hb : tasksBalanced s.inFlight ops = true) :
    (runOps s ops).inFlight + countCompletes ops = s.inFlight + countFires ops ∧
    (runOps s ops).attempts = s.attempts + countCompletes ops := by
  induction ops generalizing s with
  | nil => simp [runOps, countFires, countCompletes]
  | cons op rest ih =>
      obtain ⟨n, a⟩ := s
      cases op with
      | fire e =>
          have hb2 : tasksBalanced (n + 1) rest = true := hb
          have h2 := ih ⟨n + 1, a⟩ hb2
          simp only [runOps, stepOp, countFires, countCompletes] at h2 ⊢
          omega
      | complete b =>
          simp only [tasksBalanced] at hb
          by_cases hz : n = 0
          · rw [if_pos hz] at hb; exact absurd hb (by simp)
          · rw [if_neg hz] at hb
            have h2 := ih ⟨n - 1, a + 1⟩ hb
            simp only [runOps, stepOp, countFires, countCompletes] at h2 ⊢
            omega

theorem agentFlatRecord_keysUnique (e : Entry) (labels : List (String × String))
    (httpReq : Option HttpRequest) :
    keysUnique (agentFlatRecord e labels httpReq) = true := by
  unfold agentFlatRecord
  have hbase : keysUnique
      [("severity", JValue.s (severityString e.level)),
       ("timestampSeconds", JValue.s (toString e.time.unix)),
       ("timestampNanos", JValue.s (toString (e.time.unixNano - e.time.unix * 1000000000))),
       ("message", JValue.s e.message)] = true := rfl
  have hlab := keysUnique_insertAllWith JValue.s labels _ hbase
  cases httpReq with
  | none => exact hlab
  | some r => exact keysUnique_setKey _ "httpRequest" (JValue.http r) hlab

/-- C1, counterexample: the claim says both backends divert an error-routed
entry to the error-reporting log name when no error-reporting service name is
configured, but the agent backend posts the concrete error-level entry below
to the regular log name L, not to L_errors. -/
theorem c1_error_routing_counterexample :
    hookAgent.errorReportingServiceName = "" ∧
    isError (some entryErr) = true ∧
    hookAgent.logName = "L" ∧
    hookAgent.errorReportingLogName = "L_errors" ∧
    postedTags (sendLogMessageViaAgent hookAgent entryErr [] none) = ["L"] ∧
    ("L" : String) ≠ "L_errors" :=
  ⟨rfl, rfl, rfl, rfl, rfl, by decide⟩

/-- C1, amended: an entry is error-routed iff its severity is error, fatal or
panic; when an error-routed entry is delivered with no error-reporting service
name configured, the API backend diverts it to the error-reporting log name
(when that name is non-empty) with the payload staying a plain log entry,
while the Agent backend posts the plain flat record to the regular log
name. -/
theorem c1_error_routing :
    (∀ e : Entry, isError (some e) = true ↔
      (e.level = Level.error ∨ e.level = Level.fatal ∨ e.level = Level.panic)) ∧
    (∀ (h : Hook) (e : Entry) (labels : List (String × String))
        (httpReq : Option HttpRequest),
      h.errorReportingServiceName = "" → isError (some e) = true →
      h.errorReportingLogName ≠ "" →
      sendLogMessageViaAPI h e labels httpReq = Except.ok [Effect.apiWrite
        { logName := h.errorReportingLogName
          resource := h.resource
          labels := h.labels
          partialSuccess := h.partialSuccess
          entries := [{ severity := severityString e.level
                        timestamp := formatRFC3339 e.time
                        textPayload := e.message
                        labels := labels
                        httpRequest := httpReq }] }]) ∧
    (∀ (h : Hook) (e : Entry) (labels : List (String × String))
        (httpReq : Option HttpRequest),
      h.errorReportingServiceName = "" → isError (some e) = true →
      sendLogMessageViaAgent h e labels httpReq =
        Except.ok [Effect.agentPost h.logName (agentFlatRecord e labels httpReq)]) := by
  refine ⟨?_, ?_, ?_⟩
  · intro e
    cases e with
    | mk level time message data => cases level <;> simp [isError]
  · intro h e labels httpReq hsn hie hln
    unfold sendLogMessageViaAPI
    rw [if_neg (fun hcond => hcond.1 hsn), if_pos ⟨hln, hie⟩]
  · intro h e labels httpReq hsn hie
    unfold sendLogMessageViaAgent
    rw [if_neg (fun hcond => hcond.1 hsn)]

/-- C1, witness: the amended routing facts evaluated on concrete hooks and an
error-level entry. -/
theorem c1_error_routing_witness :
    isError (some entryErr) = true ∧
    sendLogMessageViaAPI hookApi entryErr [] none = Except.ok [Effect.apiWrite
      { logName := hookApi.errorReportingLogName
        resource := hookApi.resource
        labels := hookApi.labels
        partialSuccess := hookApi.partialSuccess
        entries := [{ severity := severityString entryErr.level
                      timestamp := formatRFC3339 entryErr.time
                      textPayload := entryErr.message
                      labels := []
                      httpRequest := none }] }] ∧
    sendLogMessageViaAgent hookAgent entryErr [] none =
      Except.ok [Effect.agentPost hookAgent.logName (agentFlatRecord entryErr [] none)] :=
  ⟨rfl,
   c1_error_routing.2.1 hookApi entryErr [] none rfl rfl (by decide),
   c1_error_routing.2.2 hookAgent entryErr [] none rfl rfl⟩

/-- C2, counterexample: the claim says the severity mapper returns CRITICAL
for fatal and EMERGENCY for panic, but it returns the lowercase strings
critical and emergency. -/
theorem c2_severity_mapper_counterexample :
    ¬ (severityString Level.fatal = "CRITICAL" ∧
       severityString Level.panic = "EMERGENCY") := by
  decide

/-- C2, amended: the severity mapper returns the lowercase token critical for
fatal and emergency for panic, and the uppercased level name for every other
level; it is a total function on levels. -/
theorem c2_severity_mapper :
    severityString Level.fatal = "critical" ∧
    severityString Level.panic = "emergency" ∧
    severityString Level.error = "ERROR" ∧
    severityString Level.warning = "WARNING" ∧
    severityString Level.info = "INFO" ∧
    severityString Level.debug = "DEBUG" ∧
    severityString Level.trace = "TRACE" ∧
    (∀ l : Level, l ≠ Level.fatal → l ≠ Level.panic →
      severityString l = upperString (Level.string l)) := by
  refine ⟨rfl, rfl, by decide, by decide, by decide, by decide, by decide, ?_⟩
  intro l h1 h2
  cases l
  · exact absurd rfl h2
  · exact absurd rfl h1
  all_goals rfl

/-- C2, witness: the generic uppercasing branch of the amended claim applied
at the info level. -/
theorem c2_severity_mapper_witness :
    severityString Level.info = upperString (Level.string Level.info) :=
  c2_severity_mapper.2.2.2.2.2.2.2 Level.info (by decide) (by decide)

/-- C3: Fire adds one to the in-flight counter, hands exactly one launched
task a snapshot whose field map is rebuilt in a fresh map with the same
contents, and returns a nil error unconditionally. -/
theorem c3_fire :
    ∀ (h : Hook) (inFlight : Nat) (e : Entry),
      Fire h inFlight e =
        { inFlight := inFlight + 1, launched := [copyEntry e], ret := none } ∧
      (Fire h inFlight e).inFlight = inFlight + 1 ∧
      (Fire h inFlight e).ret = none ∧
      (Fire h inFlight e).launched.length = 1 ∧
      (copyEntry e).level = e.level ∧
      (copyEntry e).time = e.time ∧
      (copyEntry e).message = e.message ∧
      (keysUnique e.data = true →
        ∀ k, getVal k (copyEntry e).data = getVal k e.data) := by
  intro h inFlight e
  refine ⟨rfl, rfl, rfl, rfl, rfl, rfl, rfl, ?_⟩
  intro hu k
  show getVal k (insertAllWith id [] e.data) = _
  rw [getVal_insertAllWith, lastVal_eq_getVal e.data k hu]
  cases getVal k e.data <;> rfl

/-- C3, witness: the Fire contract evaluated on a concrete entry whose field
map carries one field. -/
theorem c3_fire_witness :
    keysUnique entryUser.data = true ∧
    (Fire defaultHook 5 entryUser).inFlight = 6 ∧
    (Fire defaultHook 5 entryUser).ret = none ∧
    getVal "user" (copyEntry entryUser).data = some (FieldValue.str "alice") :=
  ⟨by decide,
   (c3_fire defaultHook 5 entryUser).2.1,
   (c3_fire defaultHook 5 entryUser).2.2.1,
   ((c3_fire defaultHook 5 entryUser).2.2.2.2.2.2.2 (by decide) "user").trans rfl⟩

/-- C4: each Fire event adds exactly one to the in-flight counter; each task
completion records one delivery attempt and subtracts exactly one regardless
of the delivery outcome; Wait returns exactly when the counter is zero; and
after any realizable interleaving in which every fired task has completed,
the counter is zero, Wait returns, and exactly as many delivery attempts were
recorded as Fire calls were made. -/
theorem c4_drain :
    (∀ (s : DispatcherState) (e : Entry),
      (stepOp s (HookOp.fire e)).inFlight = s.inFlight + 1) ∧
    (∀ (s : DispatcherState) (b : Bool),
      (stepOp s (HookOp.complete b)).attempts = s.attempts + 1 ∧
      (stepOp s (HookOp.complete b)).inFlight = s.inFlight - 1) ∧
    (∀ s : DispatcherState, waitReturns s = true ↔ s.inFlight = 0) ∧
    (∀ ops : List HookOp,
      tasksBalanced 0 ops = true → countCompletes ops = countFires ops →
      (runOps { inFlight := 0, attempts := 0 } ops).inFlight = 0 ∧
      (runOps { inFlight := 0, attempts := 0 } ops).attempts = countFires ops ∧
      waitReturns (runOps { inFlight := 0, attempts := 0 } ops) = true) := by
  refine ⟨fun s e => rfl, fun s b => ⟨rfl, rfl⟩, ?_, ?_⟩
  · intro s
    simp [waitReturns]
  · intro ops hb hc
    obtain ⟨h1, h2⟩ := runOps_invariant ops { inFlight := 0, attempts := 0 } hb
    simp only [show ({ inFlight := 0, attempts := 0 } : DispatcherState).inFlight = 0 from rfl,
      show ({ inFlight := 0, attempts := 0 } : DispatcherState).attempts = 0 from rfl,
      Nat.zero_add] at h1 h2
    have hin : (runOps { inFlight := 0, attempts := 0 } ops).inFlight = 0 := by omega
    refine ⟨hin, by omega, ?_⟩
    simp [waitReturns, hin]

/-- C4, witness: a concrete interleaving of two Fire calls and two task
completions, one of them a failed delivery, drains to a zero counter with two
recorded attempts. -/
theorem c4_drain_witness :
    tasksBalanced 0 [HookOp.fire entryErr, HookOp.fire entryUser,
      HookOp.complete true, HookOp.complete false] = true ∧
    (runOps { inFlight := 0, attempts := 0 } [HookOp.fire entryErr,
      HookOp.fire entryUser, HookOp.complete true, HookOp.complete false]).inFlight = 0 ∧
    (runOps { inFlight := 0, attempts := 0 } [HookOp.fire entryErr,
      HookOp.fire entryUser, HookOp.complete true, HookOp.complete false]).attempts =
      countFires [HookOp.fire entryErr, HookOp.fire entryUser,
        HookOp.complete true, HookOp.complete false] ∧
    waitReturns (runOps { inFlight := 0, attempts := 0 } [HookOp.fire entryErr,
      HookOp.fire entryUser, HookOp.complete true, HookOp.complete false]) = true := by
  refine ⟨by decide, ?_⟩
  exact c4_drain.2.2.2 [HookOp.fire entryErr, HookOp.fire entryUser,
    HookOp.complete true, HookOp.complete false] (by decide) (by decide)

theorem newChecks_ok_names (h h2 : Hook) (hok : newChecks h = Except.ok h2) :
    (h.logName = "" →
      h2.logName = (if h.projectID = "" then defaultName
        else "projects/" ++ h.projectID ++ "/logs/" ++ defaultName)) ∧
    (h.logName ≠ "" → h2.logName = h.logName) ∧
    (h.errorReportingLogName = "" →
      h2.errorReportingLogName = h2.logName ++ "_errors") ∧
    (h.errorReportingLogName ≠ "" →
      h2.errorReportingLogName = h.errorReportingLogName) := by
  unfold newChecks at hok
  split at hok
  · exact absurd hok (by simp)
  · split at hok
    · exact absurd hok (by simp)
    · split at hok
      · exact absurd hok (by simp)
      · by_cases hln : h.logName = ""
        · rw [if_pos (by simp [hln])] at hok
          unfold LogNameOpt at hok
          by_cases hp : h.projectID = ""
          · rw [if_pos hp] at hok
            simp only [Except.ok.injEq] at hok
            by_cases her : h.errorReportingLogName = ""
            · rw [if_pos (by simp [her])] at hok
              subst hok
              simp [hln, hp, her, defaultName]
            · rw [if_neg (by simp [her])] at hok
              subst hok
              simp [hln, hp, her, defaultName]
          · rw [if_neg hp] at hok
            simp only [Except.ok.injEq] at hok
            by_cases her : h.errorReportingLogName = ""
            · rw [if_pos (by simp [her])] at hok
              subst hok
              simp [hln, hp, her, defaultName]
            · rw [if_neg (by simp [her])] at hok
              subst hok
              simp [hln, hp, her, defaultName]
        · rw [if_neg (by simp [hln])] at hok
          simp only [Except.ok.injEq] at hok
          by_cases her : h.errorReportingLogName = ""
          · rw [if_pos (by simp [her])] at hok
            subst hok
            simp [hln, her]
          · rw [if_neg (by simp [her])] at hok
            subst hok
            simp [hln, her]

/-- C5: New fails with a descriptive error (and no hook) when no delivery
handle is configured, and, unless the agent client is present, when the
monitored resource or the project ID is missing; on success an unset log name
defaults to "default", qualified as projects/ID/logs/default when a project
is set, and an unset error-reporting log name defaults to the log name with
the _errors suffix. -/
theorem c5_new_validation :
    (∀ (opts : List (Hook → Except String Hook)) (h : Hook),
      applyOpts defaultHook opts = Except.ok h →
      h.servicePresent = false → h.agentClientPresent = false →
      New opts = Except.error "no stackdriver service was provided") ∧
    (∀ (opts : List (Hook → Except String Hook)) (h : Hook),
      applyOpts defaultHook opts = Except.ok h →
      h.agentClientPresent = false →
      (h.resource = none ∨ h.projectID = "") →
      ∃ msg, New opts = Except.error msg) ∧
    (∀ (opts : List (Hook → Except String Hook)) (h h2 : Hook),
      applyOpts defaultHook opts = Except.ok h →
      newChecks h = Except.ok h2 →
      New opts = Except.ok h2 ∧
      (h.logName = "" →
        h2.logName = (if h.projectID = "" then defaultName
          else "projects/" ++ h.projectID ++ "/logs/" ++ defaultName)) ∧
      (h.errorReportingLogName = "" →
        h2.errorReportingLogName = h2.logName ++ "_errors")) := by
  refine ⟨?_, ?_, ?_⟩
  · intro opts h hao hs ha
    have hN : New opts = newChecks h := by unfold New; rw [hao]
    rw [hN]
    unfold newChecks
    rw [if_pos (by simp [hs, ha])]
  · intro opts h hao ha hmiss
    have hN : New opts = newChecks h := by unfold New; rw [hao]
    rw [hN]
    unfold newChecks
    by_cases hs : h.servicePresent = false
    · exact ⟨_, by rw [if_pos (by simp [hs, ha])]⟩
    · rw [if_neg (by simp [hs])]
      cases hmiss with
      | inl hr => exact ⟨_, by rw [if_pos (by simp [hr, ha])]⟩
      | inr hp =>
          by_cases hr : h.resource.isNone = true
          · exact ⟨_, by rw [if_pos (by simp [hr, ha])]⟩
          · rw [if_neg (by simp [hr])]
            exact ⟨_, by rw [if_pos (by simp [hp, ha])]⟩
  · intro opts h h2 hao hok
    obtain ⟨hl1, _, hl3, _⟩ := newChecks_ok_names h h2 hok
    refine ⟨?_, hl1, hl3⟩
    have hN : New opts = newChecks h := by unfold New; rw [hao]
    rw [hN, hok]

/-- C5, witness: New with no options fails with the missing-handle error, and
New in agent mode succeeds with the defaulted names. -/
theorem c5_new_validation_witness :
    New [] = Except.error "no stackdriver service was provided" ∧
    New [agentOpt] = Except.ok { defaultHook with agentClientPresent := true, logName := "default", errorReportingLogName := "default_errors" } ∧
    ({ defaultHook with agentClientPresent := true, logName := "default", errorReportingLogName := "default_errors" } : Hook).logName = "default" := by
  refine ⟨c5_new_validation.1 [] defaultHook rfl rfl rfl, ?_, rfl⟩
  exact (c5_new_validation.2.2 [agentOpt]
    { defaultHook with agentClientPresent := true }
    { defaultHook with agentClientPresent := true, logName := "default", errorReportingLogName := "default_errors" }
    rfl rfl).1

/-- C6, counterexample: the claim says no step of translation or delivery can
panic, but the hook's own code panics on two kinds of input: delivering an
error-level entry whose caller field holds a string (with an error-reporting
service name configured) hits the unchecked type assertion in
buildErrorReportingEvent, and delivering an info-level entry one of whose
fields holds a typed-nil *http.Request dereferences nil in Fire's
extraction. -/
theorem c6_no_panic_counterexample :
    deliverEntry hookApiSvc entryBadCaller =
      Except.error "interface conversion: caller is not stack.Frame" ∧
    deliverEntry hookAgent entryNilReq =
      Except.error "runtime error: invalid memory address or nil pointer dereference" :=
  ⟨rfl, rfl⟩

/-- C6, amended: no step of event translation or delivery panics provided
that the caller field, when present, holds a stack.Frame and that every
*http.Request field value is a non-nil request with a non-nil URL; under
those conditions the worst outcome is a dropped log line.  Otherwise the
hook's own code panics: the unchecked caller type assertion in
buildErrorReportingEvent, and the nil dereferences of x.Referer() and
x.URL.String() in Fire's *http.Request extraction (the second conjunct shows
any entry violating the request condition makes the delivery task panic). -/
theorem c6_no_panic :
    (∀ (h : Hook) (e : Entry), callerOk e.data = true →
      requestsOk e.data = true →
      ∃ effs, deliverEntry h e = Except.ok effs) ∧
    (∀ (h : Hook) (e : Entry), requestsOk e.data = false →
      ∃ msg, deliverEntry h e = Except.error msg) := by
  constructor
  · intro h e hc hreq
    have hn := normalizeLoop_eq_foldl e.data { labels := [], httpReq := none } hreq
    generalize hg : e.data.foldl normalizeStepTotal { labels := [], httpReq := none } = nn at hn
    obtain ⟨ev, hev⟩ := buildErrorReportingEvent_ok h e nn.labels nn.httpReq hc
    have hd : deliverEntry h e =
        (if h.agentClientPresent = true then
          sendLogMessageViaAgent h e nn.labels nn.httpReq
        else sendLogMessageViaAPI h e nn.labels nn.httpReq) := by
      unfold deliverEntry normalizeFields
      rw [hn]
    rw [hd]
    by_cases ha : h.agentClientPresent = true
    · rw [if_pos ha]
      unfold sendLogMessageViaAgent
      split
      · rw [hev]
        exact ⟨_, rfl⟩
      · exact ⟨_, rfl⟩
    · rw [if_neg ha]
      unfold sendLogMessageViaAPI
      split
      · rw [hev]
        show ∃ effs,
          (if errorServiceReady h = true then
            Except.ok [Effect.apiReport h.projectID ev]
          else Except.ok [Effect.diag "the error reporting service is not set"]) =
            Except.ok effs
        by_cases hr : errorServiceReady h = true
        · rw [if_pos hr]
          exact ⟨_, rfl⟩
        · rw [if_neg hr]
          exact ⟨_, rfl⟩
      · exact ⟨_, rfl⟩
  · intro h e hbad
    obtain ⟨msg, hmsg⟩ :=
      normalizeLoop_error e.data { labels := [], httpReq := none } hbad
    refine ⟨msg, ?_⟩
    unfold deliverEntry normalizeFields
    rw [hmsg]

/-- C6, witness: delivery of a concrete well-formed entry completes without a
panic on both backends, and a concrete entry with a typed-nil request field
makes the delivery task panic. -/
theorem c6_no_panic_witness :
    callerOk entryUser.data = true ∧
    requestsOk entryUser.data = true ∧
    (∃ effs, deliverEntry hookAgentSvc entryUser = Except.ok effs) ∧
    (∃ effs, deliverEntry hookApiSvc entryUser = Except.ok effs) ∧
    requestsOk entryNilReq.data = false ∧
    (∃ msg, deliverEntry hookAgent entryNilReq = Except.error msg) :=
  ⟨rfl, rfl, c6_no_panic.1 hookAgentSvc entryUser rfl rfl,
   c6_no_panic.1 hookApiSvc entryUser rfl rfl, rfl,
   c6_no_panic.2 hookAgent entryNilReq rfl⟩

/-- C7: with error reporting enabled and an error-severity entry, the built
error event carries the RFC-3339 entry timestamp, the verbatim message, the
configured service name, the version and user labels (empty when absent), the
report location exactly when a caller frame is present, and the HTTP context
exactly when a normalized HTTP descriptor is present. -/
theorem c7_error_event_builder :
    ∀ (h : Hook) (e : Entry) (labels : List (String × String))
      (httpReq : Option HttpRequest),
      h.errorReportingServiceName ≠ "" → isError (some e) = true →
      callerOk e.data = true →
      ∃ ev, buildErrorReportingEvent h e labels httpReq = Except.ok ev ∧
        ev.eventTime = formatRFC3339 e.time ∧
        ev.message = e.message ∧
        ev.serviceContext.service = h.errorReportingServiceName ∧
        ev.serviceContext.version = getLabel labels "version" ∧
        ev.context.user = getLabel labels "user" ∧
        (getVal "caller" e.data = none → ev.context.reportLocation = none) ∧
        (∀ f, getVal "caller" e.data = some (FieldValue.frame f) →
          ev.context.reportLocation = some (frameLocation f)) ∧
        (httpReq = none → ev.context.httpRequest = none) ∧
        (∀ r, httpReq = some r →
          ev.context.httpRequest = some (httpRequestContextOf r)) := by
  intro h e labels httpReq hsn hie hc
  unfold callerOk at hc
  unfold buildErrorReportingEvent
  cases hcall : getVal "caller" e.data with
  | none =>
      cases httpReq with
      | none =>
          refine ⟨_, rfl, rfl, rfl, rfl, rfl, rfl, fun _ => rfl, ?_, fun _ => rfl, ?_⟩
          · intro f hf
            exact absurd hf (by simp)
          · intro r hr
            exact absurd hr (by simp)
      | some r0 =>
          refine ⟨_, rfl, rfl, rfl, rfl, rfl, rfl, fun _ => rfl, ?_, ?_, ?_⟩
          · intro f hf
            exact absurd hf (by simp)
          · intro hn
            exact absurd hn (by simp)
          · intro r hr
            cases hr
            exact rfl
  | some v =>
      cases v with
      | frame f0 =>
          cases httpReq with
          | none =>
              refine ⟨_, rfl, rfl, rfl, rfl, rfl, rfl, ?_, ?_, fun _ => rfl, ?_⟩
              · intro hn
                exact absurd hn (by simp)
              · intro f hf
                cases hf
                exact rfl
              · intro r hr
                exact absurd hr (by simp)
          | some r0 =>
              refine ⟨_, rfl, rfl, rfl, rfl, rfl, rfl, ?_, ?_, ?_, ?_⟩
              · intro hn
                exact absurd hn (by simp)
              · intro f hf
                cases hf
                exact rfl
              · intro hn
                exact absurd hn (by simp)
              · intro r hr
                cases hr
                exact rfl
      | str s => simp [hcall] at hc
      | inbound r => simp [hcall] at hc
      | httpReq r => simp [hcall] at hc
      | other r => simp [hcall] at hc

/-- C7, witness: the builder evaluated on an error entry with a user field
and the service name svc, matching the spec's end-to-end scenario 2. -/
theorem c7_error_event_builder_witness :
    isError (some entryUser) = true ∧
    (∃ ev, buildErrorReportingEvent hookApiSvc entryUser [("user", "alice")] none =
        Except.ok ev ∧
      ev.serviceContext.service = "svc" ∧ ev.context.user = "alice" ∧
      ev.message = "boom") := by
  refine ⟨rfl, ?_⟩
  obtain ⟨ev, hok, _, hmsg, hsvc, _, huser, _⟩ :=
    c7_error_event_builder hookApiSvc entryUser [("user", "alice")] none
      (by decide) rfl rfl
  exact ⟨ev, hok, hsvc.trans rfl, huser.trans rfl, hmsg.trans rfl⟩

/-- C8: on the agent backend, an error-routed entry with an error-reporting
service name configured is posted to the error-reporting log name as the
serialized error event with the flat record merged on top: every key present
in the flat record keeps its flat value, and every other key keeps the value
from the serialized event.  Serialization of this payload is total (it cannot
fail for a struct of strings and integers), so the source's serialization
failure branch is unreachable. -/
theorem c8_agent_error_merge :
    ∀ (h : Hook) (e : Entry) (labels : List (String × String))
      (httpReq : Option HttpRequest),
      h.errorReportingServiceName ≠ "" → isError (some e) = true →
      callerOk e.data = true →
      ∃ ev, buildErrorReportingEvent h e labels httpReq = Except.ok ev ∧
        sendLogMessageViaAgent h e labels httpReq =
          Except.ok [Effect.agentPost h.errorReportingLogName
            (insertAllWith id (marshalReportedErrorEvent ev)
              (agentFlatRecord e labels httpReq))] ∧
        (∀ k v, getVal k (agentFlatRecord e labels httpReq) = some v →
          getVal k (insertAllWith id (marshalReportedErrorEvent ev)
            (agentFlatRecord e labels httpReq)) = some v) ∧
        (∀ k, getVal k (agentFlatRecord e labels httpReq) = none →
          getVal k (insertAllWith id (marshalReportedErrorEvent ev)
            (agentFlatRecord e labels httpReq)) =
            getVal k (marshalReportedErrorEvent ev)) := by
  intro h e labels httpReq hsn hie hc
  obtain ⟨ev, hev⟩ := buildErrorReportingEvent_ok h e labels httpReq hc
  refine ⟨ev, hev, ?_, ?_, ?_⟩
  · unfold sendLogMessageViaAgent
    rw [if_pos ⟨hsn, hie⟩, hev]
  · intro k v hkv
    rw [getVal_insertAllWith,
      lastVal_eq_getVal _ _ (agentFlatRecord_keysUnique e labels httpReq), hkv]
    rfl
  · intro k hk
    rw [getVal_insertAllWith,
      lastVal_eq_getVal _ _ (agentFlatRecord_keysUnique e labels httpReq), hk]

/-- C8, witness: the merged error payload of a concrete error entry is posted
to the error log name L_errors, its message key keeps the flat record's
value, and a key absent from the flat record keeps the serialized event's
value. -/
theorem c8_agent_error_merge_witness :
    callerOk entryUser.data = true ∧
    (∃ ev, buildErrorReportingEvent hookAgentSvc entryUser [("user", "alice")] none =
        Except.ok ev ∧
      sendLogMessageViaAgent hookAgentSvc entryUser [("user", "alice")] none =
        Except.ok [Effect.agentPost "L_errors"
          (insertAllWith id (marshalReportedErrorEvent ev)
            (agentFlatRecord entryUser [("user", "alice")] none))] ∧
      getVal "message" (insertAllWith id (marshalReportedErrorEvent ev)
        (agentFlatRecord entryUser [("user", "alice")] none)) =
        some (JValue.s "boom")) := by
  refine ⟨rfl, ?_⟩
  obtain ⟨ev, hev, hsend, hwin, _⟩ :=
    c8_agent_error_merge hookAgentSvc entryUser [("user", "alice")] none
      (by decide) rfl rfl
  exact ⟨ev, hev, hsend, hwin "message" (JValue.s "boom") rfl⟩

/-- C9: when one or more fields of an entry hold an inbound request or a
prebuilt HTTP descriptor (each a well-formed request value, so that the
extraction itself does not panic), exactly one descriptor survives
normalization (the one of the last such field processed), no error is raised
(normalization returns ok), none of those fields' keys appears in the label
map, every string field is copied into the labels verbatim, and every
remaining field is stringified into the labels. -/
theorem c9_field_normalizer :
    ∀ data : List (String × FieldValue),
      keysUnique data = true →
      requestsOk data = true →
      data.any (fun kv => (valDescr kv.2).isSome) = true →
      ∃ n, normalizeFields data = Except.ok n ∧
        n.httpReq = lastHttpDescr data ∧
        (lastHttpDescr data).isSome = true ∧
        (∀ k v, getVal k data = some v → (valDescr v).isSome = true →
          getVal k n.labels = none) ∧
        (∀ k s, getVal k data = some (FieldValue.str s) →
          getVal k n.labels = some s) ∧
        (∀ k f, getVal k data = some (FieldValue.frame f) →
          getVal k n.labels = some (frameString f)) ∧
        (∀ k r, getVal k data = some (FieldValue.other r) →
          getVal k n.labels = some r) := by
  intro data hu hreq hx
  have hhttp := normalizeFoldl_httpReq data { labels := [], httpReq := none }
  have hlab := fun k => normalizeFoldl_labels data { labels := [], httpReq := none } k hu
  refine ⟨data.foldl normalizeStepTotal { labels := [], httpReq := none },
    normalizeLoop_eq_foldl data { labels := [], httpReq := none } hreq,
    ?_, lastHttpDescr_isSome data hx, ?_, ?_, ?_, ?_⟩
  · rw [hhttp]
    cases lastHttpDescr data <;> rfl
  · intro k v hkv hv
    have hk := hlab k
    rw [hkv] at hk
    cases v with
    | str s => simp [valDescr] at hv
    | inbound x => exact hk.trans rfl
    | httpReq r => exact hk.trans rfl
    | frame f => simp [valDescr] at hv
    | other r => simp [valDescr] at hv
  · intro k s hkv
    have hk := hlab k
    rw [hkv] at hk
    exact hk.trans rfl
  · intro k f hkv
    have hk := hlab k
    rw [hkv] at hk
    exact hk.trans rfl
  · intro k r hkv
    have hk := hlab k
    rw [hkv] at hk
    exact hk.trans rfl

/-- C9, witness: a field map holding a string, an inbound request, a prebuilt
descriptor and a generic value normalizes without error to the descriptor of
the last HTTP-shaped field, with both HTTP keys absent from the labels and
the other two fields present. -/
theorem c9_field_normalizer_witness :
    keysUnique dataMixed = true ∧
    requestsOk dataMixed = true ∧
    (∃ n, normalizeFields dataMixed = Except.ok n ∧
      n.httpReq = some { referer := "r", remoteIp := "ip", requestMethod := "POST", requestUrl := "v", userAgent := "u2" } ∧
      getVal "r1" n.labels = none ∧
      getVal "r2" n.labels = none ∧
      getVal "a" n.labels = some "x" ∧
      getVal "n" n.labels = some "42") := by
  refine ⟨by decide, by decide, ?_⟩
  obtain ⟨n, hok, h1, _, h3, h4, _, h6⟩ :=
    c9_field_normalizer dataMixed (by decide) (by decide) (by decide)
  exact ⟨n, hok, h1.trans rfl, h3 "r1" _ rfl rfl, h3 "r2" _ rfl rfl,
    h4 "a" "x" rfl, h6 "n" "42" rfl⟩

/-- C10: on the API backend, when an error-reporting service name is
configured and the entry is error-routed but the error-reporting client or
one of its nested Projects/Events services is nil, the delivery emits only
the local diagnostic line: no log write and no error report happens, so the
entry is dropped entirely. -/
theorem c10_api_error_service_missing :
    ∀ (h : Hook) (e : Entry) (labels : List (String × String))
      (httpReq : Option HttpRequest),
      h.errorReportingServiceName ≠ "" → isError (some e) = true →
      errorServiceReady h = false → callerOk e.data = true →
      sendLogMessageViaAPI h e labels httpReq =
        Except.ok [Effect.diag "the error reporting service is not set"] := by
  intro h e labels httpReq hsn hie hready hc
  obtain ⟨ev, hev⟩ := buildErrorReportingEvent_ok h e labels httpReq hc
  unfold sendLogMessageViaAPI
  rw [if_pos ⟨hsn, hie⟩, hev]
  show (if errorServiceReady h = true then
      Except.ok [Effect.apiReport h.projectID ev]
    else Except.ok [Effect.diag "the error reporting service is not set"]) = _
  rw [if_neg (by simp [hready])]

/-- C10, witness: the API-mode hook with service name svc but no error client
drops a concrete error entry with only the diagnostic line. -/
theorem c10_api_error_service_missing_witness :
    hookApiSvc.errorReportingServiceName ≠ "" ∧
    errorServiceReady hookApiSvc = false ∧
    sendLogMessageViaAPI hookApiSvc entryErr [] none =
      Except.ok [Effect.diag "the error reporting service is not set"] :=
  ⟨by decide, rfl,
   c10_api_error_service_missing hookApiSvc entryErr [] none (by decide) rfl rfl rfl⟩

end Sdhook
